import Mathlib

/-!
Verification development for the YT-Claim-Verifier repository.

The repository is a small Flask pipeline: a YouTube URL is parsed to a video
id, subtitles are retrieved via yt-dlp under several fallback configurations,
the raw VTT/SRT payload is normalized to prose, and two LLM stages extract and
fact-check claims.  This file gives a shallow embedding of the pure data flow
of `src/ytverifier.py` (the authoritative revision) and of the URL parser of
`src/main.py`, with the external effects (yt-dlp network calls, the on-disk
temp files, the LLM calls, the HTTP request body) modelled as explicit oracle
parameters and an explicit file-system state.

Modelling notes, applying throughout:
  - Python strings are modelled as Lean `String` and `List Char`; `len`,
    slicing and `split` act on characters exactly as Python does.
  - Python `str.strip`, `str.isdigit` and the regex class `\d` act on the
    ASCII subset here (the source only ever feeds them subtitle files and
    URLs, to which the Unicode extensions are irrelevant for these claims).
  - Raised Python exceptions are modelled as `Except.error` carrying a
    message string; the exact exception text is abstracted.
-/

/-- Whitespace stripped by Python `str.strip()` (ASCII subset: space, tab,
newline, carriage return, vertical tab, form feed). -/
def isPySpace (c : Char) : Bool :=
  c = ' ' || c = '\t' || c = '\n' || c = '\r' || c = Char.ofNat 11 || c = Char.ofNat 12

/-- Python `str.strip()`: drop leading and trailing whitespace. -/
def pyStrip (l : List Char) : List Char :=
  ((l.dropWhile isPySpace).reverse.dropWhile isPySpace).reverse

/-- Python truthiness of a string: `False` exactly on the empty string. -/
def pyTruthyStr (s : String) : Bool := !s.data.isEmpty

/-- Python `str.endswith` (here always called with an ASCII literal). -/
def strEndsWith (s t : String) : Bool := t.data.isSuffixOf s.data

/-- Python `str.startswith` (here always called with an ASCII literal). -/
def strStartsWith (s t : String) : Bool := t.data.isPrefixOf s.data

/-- Python truthiness of an optional string (`None` and `""` are falsy). -/
def pyTruthyOpt : Option String → Bool
  | none => false
  | some s => pyTruthyStr s

/-- Python `str.split(sep)` for a single-character separator: split on every
occurrence, producing `n+1` (possibly empty) pieces for `n` separators. -/
def splitAll (c : Char) : List Char → List (List Char)
  | [] => [[]]
  | x :: rest =>
    if x = c then [] :: splitAll c rest
    else
      match splitAll c rest with
      | h :: t => (x :: h) :: t
      | [] => [[x]]

/-- Python `' '.join(...)` on a list of character lists. -/
def joinSpace : List (List Char) → List Char
  | [] => []
  | [l] => l
  | l :: ls => l ++ ' ' :: joinSpace ls

/-- Does the list begin with the three characters of the `-->` timecode
arrow marker? -/
def startsArrow : List Char → Bool
  | a :: b :: c :: _ => a = '-' && b = '-' && c = '>'
  | _ => false

/-- Python `'-->' in line`: some position of the list starts the arrow. -/
def hasArrow : List Char → Bool
  | [] => false
  | c :: rest => startsArrow (c :: rest) || hasArrow rest

/-- Python `str.isdigit()` (ASCII digits): nonempty and all digits. -/
def pyIsDigit (l : List Char) : Bool := !l.isEmpty && l.all Char.isDigit

/-- The filter applied to each stripped line in the VTT cleaning loop of
`extract_subtitles_ytdlp_robust` (src/ytverifier.py lines 175-183): keep a
line iff it is nonempty, is not a `WEBVTT` header line, is not a `NOTE`
line, contains no `-->` timecode arrow, and is not a bare cue index. -/
def keepLine (l : List Char) : Bool :=
  !l.isEmpty && !("WEBVTT".data.isPrefixOf l) && !("NOTE".data.isPrefixOf l)
    && !hasArrow l && !pyIsDigit l

/-- The VTT cleaning path of `extract_subtitles_ytdlp_robust`
(src/ytverifier.py lines 171-184): split on newlines, strip each line, keep
the lines passing `keepLine`, and join the survivors with single spaces. -/
def cleanVttL (content : List Char) : List Char :=
  joinSpace (((splitAll '\n' content).map pyStrip).filter keepLine)

/-- String wrapper for the VTT cleaning path. -/
def clean_vtt (s : String) : String := ⟨cleanVttL s.data⟩

/-- Match a list of character predicates against the front of a list,
returning the remainder on success.  Used to embed the fixed-shape part of
the SRT timestamp regex. -/
def matchTpl : List (Char → Bool) → List Char → Option (List Char)
  | [], l => some l
  | _ :: _, [] => none
  | p :: ps, c :: l => if p c then matchTpl ps l else none

/-- Character-class template for `\d{2}:\d{2}:\d{2},\d{3}`. -/
def timeTpl : List (Char → Bool) :=
  [Char.isDigit, Char.isDigit, fun c => c = ':', Char.isDigit, Char.isDigit,
   fun c => c = ':', Char.isDigit, Char.isDigit, fun c => c = ',',
   Char.isDigit, Char.isDigit, Char.isDigit]

/-- Character-class template for the five characters of ` --> `. -/
def arrowTpl : List (Char → Bool) :=
  [fun c => c = ' ', fun c => c = '-', fun c => c = '-',
   fun c => c = '>', fun c => c = ' ']

/-- Single-newline template. -/
def nlTpl : List (Char → Bool) := [fun c => c = '\n']

/-- Character-class template for the part of the SRT block regex
`\d+\n\d{2}:\d{2}:\d{2},\d{3} --> \d{2}:\d{2}:\d{2},\d{3}\n` that follows
the leading digit run: a newline, a timestamp, the arrow ` --> `, a second
timestamp, and a final newline. -/
def tsTpl : List (Char → Bool) :=
  nlTpl ++ timeTpl ++ arrowTpl ++ timeTpl ++ nlTpl

theorem matchTpl_length {ps : List (Char → Bool)} {l r : List Char}
    (h : matchTpl ps l = some r) : r.length + ps.length = l.length := by
  induction ps generalizing l with
  | nil => simp [matchTpl] at h; simp [h]
  | cons p ps ih =>
    cases l with
    | nil => simp [matchTpl] at h
    | cons c l =>
      simp only [matchTpl] at h
      split at h
      · have := ih h
        simp [List.length_cons, ← this]; omega
      · exact absurd h (by simp)

theorem removeTs_dec {r rest : List Char}
    (h : matchTpl tsTpl (rest.dropWhile Char.isDigit) = some r) :
    r.length < rest.length + 1 := by
  have h1 := matchTpl_length h
  have h2 : (rest.dropWhile Char.isDigit).length ≤ rest.length :=
    (List.dropWhile_sublist Char.isDigit).length_le
  have h3 : tsTpl.length = 31 := rfl
  omega

/-- Python `re.sub(r'\d+\n\d{2}:\d{2}:\d{2},\d{3} --> \d{2}:\d{2}:\d{2},\d{3}\n', '', content)`
from the SRT cleaning path (src/ytverifier.py line 187 and src/h.py line 60):
scan left to right; at a digit `c`, the greedy `\d+` takes the maximal digit
run `c :: rest.takeWhile isDigit` (backtracking cannot shorten it, since the
template then requires a newline where a digit stands), then the fixed-shape
template must match the remainder `rest.dropWhile isDigit`; on a match the
whole block is dropped and scanning resumes after it, else the scan advances
one character. -/
def removeTs (l : List Char) : List Char :=
  match l with
  | [] => []
  | c :: rest =>
    if c.isDigit then
      match h : matchTpl tsTpl (rest.dropWhile Char.isDigit) with
      | some r => removeTs r
      | none => c :: removeTs rest
    else c :: removeTs rest
termination_by l.length
decreasing_by
  · simp only [List.length_cons]
    exact removeTs_dec h
  · simp
  · simp

/-- Python `re.sub(r'\n+', ' ', text)` from the SRT cleaning path: replace
every maximal run of newlines with a single space. -/
def collapseNl (l : List Char) : List Char :=
  match l with
  | [] => []
  | c :: rest =>
    if c = '\n' then ' ' :: collapseNl (rest.dropWhile (fun x => x = '\n'))
    else c :: collapseNl rest
termination_by l.length
decreasing_by
  · simp only [List.length_cons]
    exact Nat.lt_succ_of_le (List.dropWhile_sublist _).length_le
  · simp

/-- The SRT cleaning path of `extract_subtitles_ytdlp_robust`
(src/ytverifier.py lines 186-188, identical in src/h.py lines 59-61):
delete numbered timestamp blocks, collapse newline runs to spaces, strip. -/
def cleanSrtL (content : List Char) : List Char :=
  pyStrip (collapseNl (removeTs content))

/-- String wrapper for the SRT cleaning path. -/
def clean_srt (s : String) : String := ⟨cleanSrtL s.data⟩

/-! URL parsing.  `Ytverifier.extract_video_id` (src/ytverifier.py lines
34-48) works through `urllib.parse.urlparse`; the relevant slice of CPython
`urlsplit` is embedded below: removal of the unsafe bytes tab/CR/LF, scheme
detection, netloc extraction when `//` follows the scheme, then splitting
off fragment and query.  `hostname` is the part of the netloc after the
last `@` and before the first `:`, lowercased.  Percent/plus decoding in
`parse_qs` and bracketed IPv6 hosts are omitted: they are identity
respectively irrelevant on every input considered in this development. -/

/-- Characters CPython `urlsplit` deletes from the URL before parsing. -/
def urlKeepChar (c : Char) : Bool := !(c = '\t' || c = '\r' || c = '\n')

/-- Delete tab, carriage return and newline, as CPython `urlsplit` does. -/
def removeUnsafe (l : List Char) : List Char := l.filter urlKeepChar

/-- Characters allowed in a URL scheme after the leading letter. -/
def schemeChar (c : Char) : Bool := c.isAlphanum || c = '+' || c = '-' || c = '.'

/-- Scan for the first `:`; return the part before it and the part after. -/
def splitSchemeAux (acc : List Char) : List Char → Option (List Char × List Char)
  | [] => none
  | c :: rest => if c = ':' then some (acc.reverse, rest) else splitSchemeAux (c :: acc) rest

/-- CPython `urlsplit` scheme detection: if a `:` occurs at a positive
index, the first character is a letter and everything before the `:` is a
scheme character, the scheme (lowercased) is split off. -/
def splitScheme (l : List Char) : List Char × List Char :=
  match splitSchemeAux [] l with
  | some (pre, rest) =>
    if !pre.isEmpty && (match l with | c :: _ => c.isAlpha | [] => false)
        && pre.all schemeChar
    then (pre.map Char.toLower, rest) else ([], l)
  | none => ([], l)

/-- A character that does not terminate the netloc. -/
def netChar (c : Char) : Bool := !(c = '/' || c = '?' || c = '#')

/-- CPython `urlsplit` netloc extraction: after `//`, the netloc runs to
the first `/`, `?` or `#`. -/
def splitNetloc : List Char → List Char × List Char
  | '/' :: '/' :: rest => (rest.takeWhile netChar, rest.dropWhile netChar)
  | l => ([], l)

/-- Split at the first occurrence of `c`: Python `s.split(c, 1)` giving the
whole string and an empty remainder when `c` is absent. -/
def splitAtFirstAux (c : Char) (acc : List Char) : List Char → List Char × List Char
  | [] => (acc.reverse, [])
  | x :: rest => if x = c then (acc.reverse, rest) else splitAtFirstAux c (x :: acc) rest

/-- Split at the first occurrence of `c` (pieces `(before, after)`). -/
def splitAtFirst (c : Char) (l : List Char) : List Char × List Char :=
  splitAtFirstAux c [] l

/-- Like `splitAtFirst` but reports whether `c` occurred at all. -/
def splitAtFirstOpt (c : Char) (acc : List Char) : List Char → Option (List Char × List Char)
  | [] => none
  | x :: rest => if x = c then some (acc.reverse, rest) else splitAtFirstOpt c (x :: acc) rest

/-- The netloc part after the last `@` (CPython `netloc.rpartition('@')`). -/
def afterLastAt (l : List Char) : List Char :=
  (l.reverse.takeWhile (fun c => c ≠ '@')).reverse

/-- CPython `SplitResult.hostname`: after the last `@`, before the first
`:`, lowercased (`None` is represented by the empty list). -/
def pyHostname (netloc : List Char) : List Char :=
  ((afterLastAt netloc).takeWhile (fun c => c ≠ ':')).map Char.toLower

/-- CPython `parse_qs(query)[target][0]` (with default arguments): split
the query on `&`, drop empty parts and parts without `=`, split each
remaining part at its first `=`, drop pairs with an empty value, and return
the first value whose key is `target`; `none` models the `KeyError`. -/
def parseQsFirst (target : List Char) : List (List Char) → Option (List Char)
  | [] => none
  | part :: rest =>
    if part.isEmpty then parseQsFirst target rest
    else
      match splitAtFirstOpt '=' [] part with
      | none => parseQsFirst target rest
      | some (k, v) =>
        if k = target && !v.isEmpty then some v else parseQsFirst target rest

namespace Ytverifier

/-- Embedding of `extract_video_id` from src/ytverifier.py (lines 34-48):
parse the URL, then dispatch on the hostname.  `Except.error` models the
uncaught `KeyError` raised by `parse_qs(query)['v']` when a `/watch` URL
carries no usable `v` parameter, and the `IndexError` of `path.split('/')[2]`
(the latter is unreachable when the guarding `startswith` holds);
`.ok none` is the Python `return None`. -/
def extract_video_id (url : String) : Except String (Option String) :=
  let u := removeUnsafe url.data
  let rest0 := (splitScheme u).2
  let nl := splitNetloc rest0
  let beforeFrag := (splitAtFirst '#' nl.2).1
  let pq := splitAtFirst '?' beforeFrag
  let path := pq.1
  let query := pq.2
  let host := pyHostname nl.1
  if host = "youtu.be".data then .ok (some (String.mk (path.drop 1)))
  else if host = "www.youtube.com".data ∨ host = "youtube.com".data
      ∨ host = "m.youtube.com".data then
    if path = "/watch".data then
      match parseQsFirst "v".data (splitAll '&' query) with
      | some v => .ok (some (String.mk v))
      | none => .error "KeyError: v"
    else if "/embed/".data.isPrefixOf path then
      match (splitAll '/' path).get? 2 with
      | some seg => .ok (some (String.mk seg))
      | none => .error "IndexError"
    else if "/v/".data.isPrefixOf path then
      match (splitAll '/' path).get? 2 with
      | some seg => .ok (some (String.mk seg))
      | none => .error "IndexError"
    else .ok none
  else .ok none

end Ytverifier

/-! The regex-based parser of src/main.py (lines 26-43).  `re.search` with
pattern 1 `(?:v=|\/)([0-9A-Za-z_-]{11}).*` scans left to right for the
first position holding `v=` or `/` followed by eleven id-alphabet
characters; patterns 2 and 3 anchor on the literals `embed/` and
`youtu.be/`; the final fallback is `url.split("v=")[-1].split("&")[0]`,
whose `except` clause is dead code because `str.split` cannot raise. -/

/-- The video-id alphabet `[0-9A-Za-z_-]` (ASCII letters and digits). -/
def isVidChar (c : Char) : Bool := c.isAlphanum || c = '_' || c = '-'

/-- Consume exactly `n` id-alphabet characters from the front. -/
def takeVid : Nat → List Char → Option (List Char)
  | 0, _ => some []
  | _ + 1, [] => none
  | n + 1, c :: rest =>
    if isVidChar c then
      match takeVid n rest with
      | some v => some (c :: v)
      | none => none
    else none

/-- The capture group `([0-9A-Za-z_-]{11})`: the next eleven characters,
when they all lie in the id alphabet. -/
def vidTake (l : List Char) : Option (List Char) := takeVid 11 l

/-- One position of the pattern-1 scan: does `v=` or `/` followed by an
eleven-character id start here? -/
def hitAt (c : Char) (rest : List Char) : Option (List Char) :=
  if c = 'v' then
    match rest with
    | '=' :: r2 => vidTake r2
    | _ => none
  else if c = '/' then vidTake rest
  else none

/-- `re.search` for pattern 1 `(?:v=|\/)([0-9A-Za-z_-]{11}).*`. -/
def searchP1 : List Char → Option (List Char)
  | [] => none
  | c :: rest =>
    match hitAt c rest with
    | some v => some v
    | none => searchP1 rest

/-- `re.search` for a pattern `(?:tag)([0-9A-Za-z_-]{11})` with a literal
tag: first position where the tag is followed by an eleven-character id. -/
def searchTagged (tag : List Char) : List Char → Option (List Char)
  | [] => none
  | c :: rest =>
    if tag.isPrefixOf (c :: rest) then
      match vidTake ((c :: rest).drop tag.length) with
      | some v => some v
      | none => searchTagged tag rest
    else searchTagged tag rest

/-- Find the first occurrence of the (nonempty) separator: the part before
it and the part after it. -/
def findSub (sep : List Char) : List Char → Option (List Char × List Char)
  | [] => none
  | c :: rest =>
    if sep.isPrefixOf (c :: rest) then some ([], (c :: rest).drop sep.length)
    else
      match findSub sep rest with
      | some (pre, post) => some (c :: pre, post)
      | none => none

/-- Python `str.split(sep)` for a nonempty separator string: split at every
occurrence, scanning left to right.  The fuel only bounds the recursion;
each step strictly shortens the remainder, so `length + 1` never runs
out. -/
def splitOnSubFuel (sep : List Char) : Nat → List Char → List (List Char)
  | 0, l => [l]
  | fuel + 1, l =>
    match findSub sep l with
    | none => [l]
    | some (pre, post) => pre :: splitOnSubFuel sep fuel post

/-- Python `str.split(sep)` for a nonempty separator string. -/
def splitOnSub (sep : List Char) (l : List Char) : List (List Char) :=
  splitOnSubFuel sep (l.length + 1) l

namespace MainPy

/-- The fallback `url.split("v=")[-1].split("&")[0]` of src/main.py: the
piece after the last `v=` (the whole URL when `v=` is absent), truncated
before the first `&`. -/
def fallbackSplit (url : String) : String :=
  String.mk (((splitOnSub "v=".data url.data).getLastD []).takeWhile
    (fun c => c ≠ '&'))

/-- Embedding of `extract_video_id` from src/main.py (lines 26-43): try the
three regex patterns in order, else the naive fallback.  The fallback always
returns a string (its `except: return None` is unreachable), so this
function never yields `none`. -/
def extract_video_id (url : String) : Option String :=
  match searchP1 url.data with
  | some v => some (String.mk v)
  | none =>
    match searchTagged "embed/".data url.data with
    | some v => some (String.mk v)
    | none =>
      match searchTagged "youtu.be/".data url.data with
      | some v => some (String.mk v)
      | none => some (fallbackSplit url)

/-- The guard in src/main.py `main()` (lines 219-222): the Caption Source
Adapter `extract_transcript` is invoked exactly when the parsed video id is
truthy. -/
def invokes_adapter (url : String) : Bool :=
  match extract_video_id url with
  | some v => pyTruthyStr v
  | none => false

end MainPy

/-! The robust subtitle extractor `extract_subtitles_ytdlp_robust`
(src/ytverifier.py lines 51-210).  One call tries four yt-dlp
configurations in order.  Per configuration: an inner `try` fetches video
metadata (on success the running `video_title` is replaced, on exception it
is kept), then `ydl.download` runs (modelled as writing a set of subtitle
files keyed by extension, then possibly raising, which skips the scan), then
the six candidate extensions are scanned in order; a found file is read,
cleaned according to its format, deleted, and returned together with the
title when the cleaned text exceeds 50 characters, otherwise the scan moves
on.  After the last configuration the fixed failure pair is returned.  The
environment below is the oracle for the three external effects; the file
system is a map from extension name to file content (the common
`temp_subtitle_<uuid>.` filename prefix is elided). -/

/-- Oracle for the external effects of one call to the robust extractor,
indexed by configuration number 0-3. -/
structure RobustEnv where
  /-- Metadata fetch: `some t` means `extract_info` succeeded and
  `info.get('title', 'Unknown Video')` evaluated to `t`; `none` means it
  raised, leaving the running title unchanged. -/
  info : Nat → Option String
  /-- Files written by `ydl.download` under this configuration, keyed by
  subtitle extension (e.g. `en.vtt`), in write order. -/
  writes : Nat → List (String × String)
  /-- Whether `ydl.download` raises after writing, aborting this
  configuration before the file scan. -/
  dlRaises : Nat → Bool

/-- File-system state: extension name to content of an existing file. -/
def FSV : Type := String → Option String

/-- Create or overwrite one file. -/
def fsSet (fs : FSV) (k : String) (v : Option String) : FSV :=
  fun k2 => if k2 = k then v else fs k2

/-- Apply a download's writes in order. -/
def applyWrites (fs : FSV) : List (String × String) → FSV
  | [] => fs
  | (k, v) :: rest => applyWrites (fsSet fs k (some v)) rest

/-- The candidate subtitle extensions, in scan order (src/ytverifier.py
line 160). -/
def subtitle_extensions : List String :=
  ["en.vtt", "en.srt", "en-US.vtt", "en-US.srt", "en-GB.vtt", "en-GB.srt"]

/-- The file-scan loop of one configuration (src/ytverifier.py lines
162-198): for each extension in order, if the file exists, read it, clean
it by format (`.vtt` extensions use the VTT path, the rest the SRT path),
delete it, and stop with the cleaned text when it is nonempty and longer
than 50 characters; otherwise keep scanning.  Returns the found text (if
any) and the resulting file system. -/
def scanExts (fs : FSV) : List String → Option String × FSV
  | [] => (none, fs)
  | ext :: rest =>
    match fs ext with
    | none => scanExts fs rest
    | some content =>
      let text := if strEndsWith ext ".vtt" then clean_vtt content else clean_srt content
      let fs2 := fsSet fs ext none
      if pyTruthyStr text && decide (50 < text.length) then (some text, fs2)
      else scanExts fs2 rest

/-- The failure message returned when every configuration has failed
(src/ytverifier.py line 210). -/
def allFailMsg : String :=
  "All yt-dlp configurations failed. The video may not have subtitles or server access is restricted."

/-- Result of a call to the robust extractor: the returned pair, the number
of configuration attempts performed, and the final file-system state (the
latter two are instrumentation for the termination and cleanup claims). -/
structure RobustOut where
  ret : Option String × String
  attempts : Nat
  fs : FSV

/-- The configuration loop (src/ytverifier.py lines 143-208) over the
remaining configuration indices, threading the running title, the file
system, and the attempt count. -/
def runConfigsAux (env : RobustEnv) : List Nat → String → FSV → Nat → RobustOut
  | [], _, fs, n => ⟨(none, allFailMsg), n, fs⟩
  | i :: rest, title, fs, n =>
    let title2 := match env.info i with | some t => t | none => title
    let fs1 := applyWrites fs (env.writes i)
    if env.dlRaises i then runConfigsAux env rest title2 fs1 (n + 1)
    else
      match scanExts fs1 subtitle_extensions with
      | (some text, fs2) => ⟨(some title2, text), n + 1, fs2⟩
      | (none, fs2) => runConfigsAux env rest title2 fs2 (n + 1)

/-- The four configuration indices of the `configs` list
(src/ytverifier.py lines 60-139). -/
def configIdxs : List Nat := [0, 1, 2, 3]

/-- Embedding of `extract_subtitles_ytdlp_robust` (src/ytverifier.py lines
51-210): title starts as `Unknown Video`, the file system starts empty
(the per-call uuid makes the temp name fresh), and the four configurations
run in order. -/
def extract_subtitles_ytdlp_robust (env : RobustEnv) : RobustOut :=
  runConfigsAux env configIdxs "Unknown Video" (fun _ => none) 0

/-- The returned `(title, text)` pair alone. -/
def robustRet (env : RobustEnv) : Option String × String :=
  (extract_subtitles_ytdlp_robust env).ret

namespace Ytverifier

/-- Embedding of `extract_subtitles` (src/ytverifier.py lines 213-234),
instrumented with a flag recording whether the robust extractor (the
Caption Source Adapter) was invoked.  `rob` is the behaviour of
`extract_subtitles_ytdlp_robust` on this request; its `.error` case feeds
the `except` clause.  An `Except.error` result models the uncaught
exception of `extract_video_id` propagating to the caller. -/
def extract_subtitlesTr (rob : String → Except String (Option String × String))
    (url : String) : Except String (Option String × String) × Bool :=
  match extract_video_id url with
  | .error e => (.error e, false)
  | .ok vid =>
    if pyTruthyOpt vid = false then (.ok (none, "Invalid YouTube URL"), false)
    else
      match rob url with
      | .error e => (.ok (none, "Extraction failed: " ++ e), true)
      | .ok (vt, tr) =>
        if pyTruthyStr tr && pyTruthyOpt vt && decide (50 < tr.length) then
          (.ok (vt, tr), true)
        else (.ok (none, "Could not extract meaningful transcript content"), true)

/-- `extract_subtitles` without the instrumentation flag. -/
def extract_subtitles (rob : String → Except String (Option String × String))
    (url : String) : Except String (Option String × String) :=
  (extract_subtitlesTr rob url).1

end Ytverifier

/-! The two LLM stages and the `/api/check-claims` handler
(src/ytverifier.py lines 237-291 and 309-353).  `gen` is the oracle for
`model.generate_content(...).text`: `.ok t` is a returned text, `.error e`
a raised exception with message `e`. -/

/-- The claim-extraction prompt (src/ytverifier.py lines 241-257): a fixed
template embedding the title and the transcript truncated to 4000
characters.  The surrounding instruction text is abbreviated; only the
embedded data matters to the claims checked here. -/
def claimsPrompt (title text : String) : String :=
  "Analyze this video transcript and extract the main factual claims. Video Title: "
    ++ title ++ " Transcript: " ++ text.take 4000

/-- The fact-check prompt (src/ytverifier.py lines 271-284), likewise
abbreviated around the embedded claims. -/
def factPrompt (claims : String) : String :=
  "Please fact-check these claims from a YouTube video. Claims to check: " ++ claims

/-- Embedding of `extract_claims` (src/ytverifier.py lines 237-264): one
LLM call; any exception is caught and converted to an error-prefixed
string. -/
def extract_claims (gen : String → Except String String) (text title : String) : String :=
  match gen (claimsPrompt title text) with
  | .ok r => r
  | .error e => "Error extracting claims: " ++ e

/-- Embedding of `fact_check_claims` (src/ytverifier.py lines 267-291). -/
def fact_check_claims (gen : String → Except String String) (claims : String) : String :=
  match gen (factPrompt claims) with
  | .ok r => r
  | .error e => "Error fact-checking claims: " ++ e

/-- Response body of the `/api/check-claims` handler: the success object
with its five data fields, or an error object with its `error` string. -/
inductive RespBody where
  | success (video_title video_url : String) (transcript_length : Nat)
      (claims fact_check_results : String)
  | err (msg : String)
deriving DecidableEq

/-- Embedding of the `check_claims` handler (src/ytverifier.py lines
309-353), instrumented with two flags recording whether the
claim-extraction stage and the fact-check stage were invoked.

  - `getUrl` is the outcome of `request.get_json()` followed by
    `data.get('video_url')`: `.error` models an exception (e.g. a missing
    JSON body), `.ok none` a missing field, `.ok (some u)` the field.
  - `hasKey` is the `GEMINI_API_KEY` configuration state.
  - `subs` is the behaviour of `extract_subtitles`; its `.error` case is
    caught by the handler's outer `except` as a 500.
  - `genC`/`genF` are the LLM oracles of the two stages. -/
def check_claimsTr (getUrl : Except String (Option String)) (hasKey : Bool)
    (subs : String → Except String (Option String × String))
    (genC genF : String → Except String String) :
    (Nat × RespBody) × (Bool × Bool) :=
  match getUrl with
  | .error e => ((500, .err ("Unexpected error: " ++ e)), (false, false))
  | .ok vu =>
    if pyTruthyOpt vu = false then ((400, .err "Video URL is required"), (false, false))
    else
      match vu with
      | none => ((400, .err "Video URL is required"), (false, false))
      | some u =>
        if !hasKey then ((500, .err "Gemini API key not configured"), (false, false))
        else
          match subs u with
          | .error e => ((500, .err ("Unexpected error: " ++ e)), (false, false))
          | .ok (vt, tr) =>
            if !(pyTruthyStr tr && pyTruthyOpt vt) then
              ((400, .err (if pyTruthyStr tr then tr
                           else "Could not extract subtitles from video")),
               (false, false))
            else
              match vt with
              | none => ((400, .err "Could not extract subtitles from video"), (false, false))
              | some t =>
                let claims := extract_claims genC tr t
                if !pyTruthyStr claims || strStartsWith claims "Error" then
                  ((500, .err (if pyTruthyStr claims then claims
                               else "Could not extract claims")),
                   (true, false))
                else
                  let fc := fact_check_claims genF claims
                  if !pyTruthyStr fc || strStartsWith fc "Error" then
                    ((500, .err (if pyTruthyStr fc then fc
                                 else "Could not fact-check claims")),
                     (true, true))
                  else
                    ((200, .success t u tr.length claims fc), (true, true))

/-- The handler's HTTP response alone. -/
def check_claims (getUrl : Except String (Option String)) (hasKey : Bool)
    (subs : String → Except String (Option String × String))
    (genC genF : String → Except String String) : Nat × RespBody :=
  (check_claimsTr getUrl hasKey subs genC genF).1

/-- Decidable equality for `Except`, used to evaluate the model at
concrete inputs. -/
instance {e a : Type} [DecidableEq e] [DecidableEq a] : DecidableEq (Except e a) := fun x y =>
  match x, y with
  | .ok u, .ok v => if h : u = v then isTrue (by rw [h]) else isFalse (by simp [h])
  | .error u, .error v => if h : u = v then isTrue (by rw [h]) else isFalse (by simp [h])
  | .ok _, .error _ => isFalse (by simp)
  | .error _, .ok _ => isFalse (by simp)

/-- The environment with every metadata fetch failing: isolates the claim
that a title is never required for success. -/
def wipeInfo (env : RobustEnv) : RobustEnv :=
  { env with info := fun _ => none }

/-- Concrete environment: no configuration ever produces a file, no call
raises.  Every attempt fails, so all four configurations run. -/
def envAllFail : RobustEnv :=
  { info := fun _ => none, writes := fun _ => [], dlRaises := fun _ => false }

/-- A subtitle line longer than the 50-character substance threshold. -/
def longLine : String :=
  "This transcript line is long enough to pass the fifty character minimum threshold check."

/-- Concrete environment: the first download writes two sufficient subtitle
files, `en.vtt` and `en-US.vtt`. -/
def envTwoFiles : RobustEnv :=
  { info := fun _ => none
    writes := fun i => if i = 0 then [("en.vtt", longLine), ("en-US.vtt", longLine)] else []
    dlRaises := fun _ => false }

/-- Concrete environment: the first download writes one sufficient
`en.vtt`. -/
def envOneFile : RobustEnv :=
  { info := fun _ => none
    writes := fun i => if i = 0 then [("en.vtt", longLine)] else []
    dlRaises := fun _ => false }

/-- Concrete file system holding only a below-threshold `en.vtt`. -/
def fsOnlyShort : FSV := fun k => if k = "en.vtt" then some "short" else none

/-- Concrete stage oracles used to instantiate the handler theorems. -/
def getUrlOk : Except String (Option String) := .ok (some "https://youtu.be/dQw4w9WgXcQ")

/-- Subtitle stage that succeeds with a fixed title and transcript. -/
def subsOk : String → Except String (Option String × String) :=
  fun _ => .ok (some "Test Video", "abc")

/-- LLM oracle returning a fixed claims list. -/
def genOkC : String → Except String String := fun _ => .ok "1. Claim"

/-- LLM oracle returning a fixed verification text. -/
def genOkF : String → Except String String := fun _ => .ok "Status: TRUE"

/-- Robust-extractor oracle that reports a short transcript. -/
def robShort : String → Except String (Option String × String) :=
  fun _ => .ok (some "Test Video", "tiny")

/-- Robust-extractor oracle used where its behaviour is irrelevant. -/
def robAny : String → Except String (Option String × String) :=
  fun _ => .ok (none, "unused")

/-! Helper lemmas about the file scan and the configuration loop. -/

theorem scanExts_cons (fs : FSV) (ext : String) (rest : List String) :
    scanExts fs (ext :: rest) =
      match fs ext with
      | none => scanExts fs rest
      | some content =>
        let text := if strEndsWith ext ".vtt" then clean_vtt content else clean_srt content
        if pyTruthyStr text && decide (50 < text.length) then (some text, fsSet fs ext none)
        else scanExts (fsSet fs ext none) rest := rfl

theorem scanExts_some_spec {fs : FSV} {exts : List String} {text : String} {fs2 : FSV}
    (h : scanExts fs exts = (some text, fs2)) :
    pyTruthyStr text = true ∧ 50 < text.length := by
  induction exts generalizing fs with
  | nil => simp [scanExts] at h
  | cons ext rest ih =>
    rw [scanExts_cons] at h
    obtain hf | ⟨content, hf⟩ := Option.eq_none_or_eq_some (fs ext) <;> rw [hf] at h
    · exact ih h
    · dsimp only at h
      generalize (if strEndsWith ext ".vtt" then clean_vtt content else clean_srt content) = txt at h
      split at h
      · rename_i hcond
        simp only [Bool.and_eq_true, decide_eq_true_eq] at hcond
        cases h
        exact hcond
      · exact ih h

theorem scanExts_no_create {exts : List String} {fs : FSV} {k : String}
    (h : fs k = none) : (scanExts fs exts).2 k = none := by
  induction exts generalizing fs with
  | nil => simpa [scanExts] using h
  | cons ext rest ih =>
    rw [scanExts_cons]
    obtain hf | ⟨content, hf⟩ := Option.eq_none_or_eq_some (fs ext) <;> rw [hf]
    · exact ih h
    · dsimp only
      generalize (if strEndsWith ext ".vtt" then clean_vtt content else clean_srt content) = txt
      have hset : fsSet fs ext none k = none := by
        unfold fsSet; split <;> simp [h]
      split
      · exact hset
      · exact ih hset

theorem scanExts_none_clears {exts : List String} {fs : FSV}
    (h : (scanExts fs exts).1 = none) :
    ∀ e ∈ exts, (scanExts fs exts).2 e = none := by
  induction exts generalizing fs with
  | nil => simp
  | cons ext rest ih =>
    intro e he
    rw [scanExts_cons] at h ⊢
    obtain hf | ⟨content, hf⟩ := Option.eq_none_or_eq_some (fs ext) <;> rw [hf] at h ⊢
    · rcases List.mem_cons.1 he with rfl | hr
      · exact scanExts_no_create hf
      · exact ih h e hr
    · dsimp only at h ⊢
      generalize (if strEndsWith ext ".vtt" then clean_vtt content else clean_srt content) = txt at h ⊢
      split at h
      · simp at h
      · rename_i hcond
        rw [if_neg hcond]
        have hset : fsSet fs ext none ext = none := by unfold fsSet; simp
        rcases List.mem_cons.1 he with rfl | hr
        · exact scanExts_no_create hset
        · exact ih h e hr

theorem scanExts_some_deletes {fs : FSV} {exts : List String} {text : String} {fs2 : FSV}
    (h : scanExts fs exts = (some text, fs2)) :
    ∃ e ∈ exts, fs e ≠ none ∧ fs2 e = none := by
  induction exts generalizing fs with
  | nil => simp [scanExts] at h
  | cons ext rest ih =>
    rw [scanExts_cons] at h
    obtain hf | ⟨content, hf⟩ := Option.eq_none_or_eq_some (fs ext) <;> rw [hf] at h
    · obtain ⟨e, he, hne, hdel⟩ := ih h
      exact ⟨e, List.mem_cons_of_mem _ he, hne, hdel⟩
    · dsimp only at h
      generalize (if strEndsWith ext ".vtt" then clean_vtt content else clean_srt content) = txt at h
      split at h
      · cases h
        refine ⟨ext, List.mem_cons_self _ _, by simp [hf], ?_⟩
        unfold fsSet; simp
      · obtain ⟨e, he, hne, hdel⟩ := ih h
        refine ⟨e, List.mem_cons_of_mem _ he, ?_, hdel⟩
        intro hnone
        have : fsSet fs ext none e = none := by
          unfold fsSet; split <;> simp [hnone]
        exact hne this

theorem runConfigsAux_attempts (env : RobustEnv) :
    ∀ (idxs : List Nat) (title : String) (fs : FSV) (n : Nat),
      (runConfigsAux env idxs title fs n).attempts ≤ n + idxs.length := by
  intro idxs
  induction idxs with
  | nil => intro title fs n; simp [runConfigsAux]
  | cons i rest ih =>
    intro title fs n
    simp only [runConfigsAux]
    split
    · have := ih (match env.info i with | some t => t | none => title)
        (applyWrites fs (env.writes i)) (n + 1)
      simp only [List.length_cons]; omega
    · cases hs : scanExts (applyWrites fs (env.writes i)) subtitle_extensions with
      | mk r fs2 =>
        cases r with
        | some text => simp [List.length_cons]
        | none =>
          simp only
          have := ih (match env.info i with | some t => t | none => title) fs2 (n + 1)
          simp only [List.length_cons]; omega

theorem runConfigsAux_ret_spec (env : RobustEnv) :
    ∀ (idxs : List Nat) (title : String) (fs : FSV) (n : Nat),
      (runConfigsAux env idxs title fs n).ret = (none, allFailMsg) ∨
        ∃ t s, (runConfigsAux env idxs title fs n).ret = (some t, s)
          ∧ s ≠ "" ∧ 50 < s.length := by
  intro idxs
  induction idxs with
  | nil => intro title fs n; left; simp [runConfigsAux]
  | cons i rest ih =>
    intro title fs n
    simp only [runConfigsAux]
    split
    · exact ih _ _ _
    · cases hs : scanExts (applyWrites fs (env.writes i)) subtitle_extensions with
      | mk r fs2 =>
        cases r with
        | some text =>
          right
          obtain ⟨ht, hlen⟩ := scanExts_some_spec hs
          refine ⟨_, text, rfl, ?_, hlen⟩
          intro he
          rw [he] at ht
          exact absurd ht (by decide)
        | none => exact ih _ _ _

theorem runConfigsAux_title_src (env : RobustEnv) :
    ∀ (idxs : List Nat) (title : String) (fs : FSV) (n : Nat) (t s : String),
      (runConfigsAux env idxs title fs n).ret = (some t, s) →
      t = title ∨ ∃ i ∈ idxs, env.info i = some t := by
  intro idxs
  induction idxs with
  | nil => intro title fs n t s h; simp [runConfigsAux] at h
  | cons i rest ih =>
    intro title fs n t s h
    simp only [runConfigsAux] at h
    split at h
    · rcases ih _ _ _ _ _ h with h2 | ⟨j, hj, hji⟩
      · cases hinfo : env.info i with
        | none => rw [hinfo] at h2; exact Or.inl h2
        | some t2 =>
          rw [hinfo] at h2; subst h2
          exact Or.inr ⟨i, List.mem_cons_self _ _, hinfo⟩
      · exact Or.inr ⟨j, List.mem_cons_of_mem _ hj, hji⟩
    · cases hs : scanExts (applyWrites fs (env.writes i)) subtitle_extensions with
      | mk r fs2 =>
        rw [hs] at h
        cases r with
        | some text =>
          simp only at h
          have ht : t = (match env.info i with | some t2 => t2 | none => title) := by
            cases h; rfl
          cases hinfo : env.info i with
          | none => rw [hinfo] at ht; exact Or.inl ht
          | some t2 =>
            rw [hinfo] at ht; subst ht
            exact Or.inr ⟨i, List.mem_cons_self _ _, hinfo⟩
        | none =>
          simp only at h
          rcases ih _ _ _ _ _ h with h2 | ⟨j, hj, hji⟩
          · cases hinfo : env.info i with
            | none => rw [hinfo] at h2; exact Or.inl h2
            | some t2 =>
              rw [hinfo] at h2; subst h2
              exact Or.inr ⟨i, List.mem_cons_self _ _, hinfo⟩
          · exact Or.inr ⟨j, List.mem_cons_of_mem _ hj, hji⟩

theorem runConfigsAux_info_indep (env : RobustEnv) :
    ∀ (idxs : List Nat) (t1 t2 : String) (fs : FSV) (n : Nat),
      ((runConfigsAux (wipeInfo env) idxs t1 fs n).ret.2
          = (runConfigsAux env idxs t2 fs n).ret.2)
        ∧ ((runConfigsAux (wipeInfo env) idxs t1 fs n).ret.1.isSome
            = (runConfigsAux env idxs t2 fs n).ret.1.isSome) := by
  intro idxs
  induction idxs with
  | nil => intro t1 t2 fs n; simp [runConfigsAux]
  | cons i rest ih =>
    intro t1 t2 fs n
    simp only [runConfigsAux, wipeInfo]
    split
    · exact ih _ _ _ _
    · cases hs : scanExts (applyWrites fs (env.writes i)) subtitle_extensions with
      | mk r fs2 =>
        cases r with
        | some text => simp
        | none => exact ih _ _ _ _

theorem pyTruthyStr_of_ne {s : String} (h : s ≠ "") : pyTruthyStr s = true := by
  rcases s with ⟨l⟩
  cases l with
  | nil => exact absurd rfl h
  | cons c rest => simp [pyTruthyStr]

theorem ne_of_pyTruthyStr {s : String} (h : pyTruthyStr s = true) : s ≠ "" := by
  intro he
  subst he
  exact absurd h (by decide)

/-- Claim C4, counterexample: with every configuration failing (no files
produced), the configuration loop performs four retrieval attempts, one per
entry of the `configs` list — more than the bound of three retries stated
by the specification. -/
theorem c4_counterexample :
    (extract_subtitles_ytdlp_robust envAllFail).attempts = 4
      ∧ ¬ (extract_subtitles_ytdlp_robust envAllFail).attempts ≤ 3 := by
  constructor
  · rfl
  · intro h
    have : (extract_subtitles_ytdlp_robust envAllFail).attempts = 4 := rfl
    omega

/-- Claim C4 (amended): the retry/fallback loop of
`extract_subtitles_ytdlp_robust` performs at most four retrieval attempts
(the length of its configuration catalogue) per call and terminates for
every environment, even when every attempt fails. -/
theorem c4_attempts_bounded (env : RobustEnv) :
    (extract_subtitles_ytdlp_robust env).attempts ≤ 4 := by
  have h := runConfigsAux_attempts env configIdxs "Unknown Video" (fun _ => none) 0
  simpa [configIdxs] using h

/-- Claim C5: `extract_subtitles_ytdlp_robust` always returns a normal
value (the embedding is a total function: every exception inside the
configuration loop is caught and turns into `continue`): when every
attempt fails it returns the typed `(None, reason)` pair with the fixed
failure message, and otherwise the `(title, text)` pair of the succeeding
attempt, whose text passed the substance check. -/
theorem c5_robust_typed_outcome (env : RobustEnv) :
    robustRet env = (none, allFailMsg) ∨
      ∃ t s, robustRet env = (some t, s) ∧ s ≠ "" ∧ 50 < s.length :=
  runConfigsAux_ret_spec env configIdxs "Unknown Video" (fun _ => none) 0

/-- Claim C6: every successful result of subtitle extraction carries text
strictly longer than the 50-character substance threshold, and a transcript
at or below the threshold is converted by `extract_subtitles` into the
`Could not extract meaningful transcript content` failure rather than a
success. -/
theorem c6_threshold (env : RobustEnv)
    (rob : String → Except String (Option String × String))
    (url v t s : String) :
    (∀ t2 s2, robustRet env = (some t2, s2) → 50 < s2.length) ∧
    (Ytverifier.extract_video_id url = .ok (some v) → v ≠ "" →
      rob url = .ok (some t, s) → s.length ≤ 50 →
      Ytverifier.extract_subtitlesTr rob url
        = (.ok (none, "Could not extract meaningful transcript content"), true)) := by
  constructor
  · intro t2 s2 h
    rcases runConfigsAux_ret_spec env configIdxs "Unknown Video" (fun _ => none) 0
      with h1 | ⟨t3, s3, h3, _, hlen⟩
    · rw [show robustRet env
          = (runConfigsAux env configIdxs "Unknown Video" (fun _ => none) 0).ret from rfl] at h
      rw [h1] at h
      cases h
    · rw [show robustRet env
          = (runConfigsAux env configIdxs "Unknown Video" (fun _ => none) 0).ret from rfl] at h
      rw [h3] at h
      obtain ⟨h4, h5⟩ := Prod.mk.injEq .. ▸ h
      cases h
      exact hlen
  · intro hparse hv hrob hlen
    unfold Ytverifier.extract_subtitlesTr
    rw [hparse]
    have htv : pyTruthyOpt (some v) = true := pyTruthyStr_of_ne hv
    simp only [htv]
    rw [hrob]
    simp only
    have hc : decide (50 < s.length) = false := by simpa using hlen
    simp [hc]

/-- Witness for C6 at concrete inputs: the successful run of
`envOneFile` yields text above the threshold, and a 4-character transcript
is rejected by `extract_subtitles`. -/
theorem c6_witness :
    50 < ((robustRet envOneFile).2).length
      ∧ Ytverifier.extract_subtitlesTr robShort "https://youtu.be/dQw4w9WgXcQ"
          = (.ok (none, "Could not extract meaningful transcript content"), true) :=
  ⟨(c6_threshold envOneFile robShort "https://youtu.be/dQw4w9WgXcQ" "dQw4w9WgXcQ"
      "Test Video" "tiny").1 "Unknown Video" longLine rfl,
   (c6_threshold envOneFile robShort "https://youtu.be/dQw4w9WgXcQ" "dQw4w9WgXcQ"
      "Test Video" "tiny").2 rfl (by decide) rfl (by decide)⟩

/-- Claim C10: a successful return of the robust extractor carries a title
string that is never `None` by construction: it is the initial
`Unknown Video` placeholder or a title delivered by some configuration's
metadata fetch; and wiping every metadata fetch (all of them failing)
changes neither the returned text nor whether the call succeeds. -/
theorem c10_success_title (env : RobustEnv) (t s : String) :
    (robustRet env = (some t, s) →
      t = "Unknown Video" ∨ ∃ i ∈ configIdxs, env.info i = some t)
    ∧ (robustRet (wipeInfo env)).2 = (robustRet env).2
    ∧ (robustRet (wipeInfo env)).1.isSome = (robustRet env).1.isSome := by
  refine ⟨fun h => runConfigsAux_title_src env configIdxs "Unknown Video"
      (fun _ => none) 0 t s h, ?_, ?_⟩
  · exact (runConfigsAux_info_indep env configIdxs "Unknown Video" "Unknown Video"
      (fun _ => none) 0).1
  · exact (runConfigsAux_info_indep env configIdxs "Unknown Video" "Unknown Video"
      (fun _ => none) 0).2

/-- Witness for C10: with every metadata fetch failing, the successful run
of `envOneFile` returns the `Unknown Video` placeholder. -/
theorem c10_witness :
    "Unknown Video" = "Unknown Video"
      ∨ ∃ i ∈ configIdxs, envOneFile.info i = some "Unknown Video" :=
  (c10_success_title envOneFile "Unknown Video" longLine).1 rfl

/-- Claim C9, counterexample: under `envTwoFiles` the first download writes
both `en.vtt` and `en-US.vtt`; the scan returns successfully after reading
and deleting `en.vtt`, and the sibling `en-US.vtt` written during the same
attempt is still on disk when the function returns. -/
theorem c9_counterexample :
    (extract_subtitles_ytdlp_robust envTwoFiles).fs "en-US.vtt" = some longLine
      ∧ ((extract_subtitles_ytdlp_robust envTwoFiles).ret).1 = some "Unknown Video" :=
  ⟨rfl, rfl⟩

/-- Claim C9 (amended): the extension scan deletes exactly the files it
finds: when the scan exhausts every extension without success, no file
under any scanned extension remains; when it succeeds, the file it read
has been deleted before returning.  Files the scan never reaches — other
extensions after an early success, or files written by a configuration
whose download raised before the scan — are retained (see the
counterexample). -/
theorem c9_scan_cleanup (fs : FSV) :
    ((scanExts fs subtitle_extensions).1 = none →
      ∀ e ∈ subtitle_extensions, (scanExts fs subtitle_extensions).2 e = none)
    ∧ (∀ text fs2, scanExts fs subtitle_extensions = (some text, fs2) →
        ∃ e ∈ subtitle_extensions, fs e ≠ none ∧ fs2 e = none) :=
  ⟨fun h => scanExts_none_clears h, fun _ _ h => scanExts_some_deletes h⟩

/-- Witness for C9 (amended) at a concrete file system: the below-threshold
`en.vtt` is deleted by the failing scan. -/
theorem c9_witness :
    (scanExts fsOnlyShort subtitle_extensions).2 "en.vtt" = none :=
  (c9_scan_cleanup fsOnlyShort).1 rfl "en.vtt" (by decide)

/-! Helper lemmas about `extract_subtitles` and the handler. -/

theorem extract_subtitlesTr_invalid (rob : String → Except String (Option String × String))
    (url : String)
    (h : Ytverifier.extract_video_id url = .ok none
      ∨ Ytverifier.extract_video_id url = .ok (some "")) :
    Ytverifier.extract_subtitlesTr rob url = (.ok (none, "Invalid YouTube URL"), false) := by
  unfold Ytverifier.extract_subtitlesTr
  rcases h with h | h <;> rw [h] <;> rfl

theorem extract_subtitlesTr_short (rob : String → Except String (Option String × String))
    (url v t s : String) (hparse : Ytverifier.extract_video_id url = .ok (some v))
    (hv : v ≠ "") (hrob : rob url = .ok (some t, s)) (hlen : s.length ≤ 50) :
    Ytverifier.extract_subtitlesTr rob url
      = (.ok (none, "Could not extract meaningful transcript content"), true) := by
  unfold Ytverifier.extract_subtitlesTr
  rw [hparse]
  have htv : pyTruthyOpt (some v) = true := pyTruthyStr_of_ne hv
  simp only [htv]
  rw [hrob]
  have hc : decide (50 < s.length) = false := by simpa using hlen
  simp [hc]

theorem check_flags_of_subs_fail (getUrl : Except String (Option String)) (hasKey : Bool)
    (subs : String → Except String (Option String × String))
    (genC genF : String → Except String String) (u : String)
    (hget : getUrl = .ok (some u)) (hu : u ≠ "") (hkey : hasKey = true)
    (h : (∃ e, subs u = .error e)
      ∨ ∃ vt tr, subs u = .ok (vt, tr) ∧ (pyTruthyStr tr && pyTruthyOpt vt) = false) :
    (check_claimsTr getUrl hasKey subs genC genF).2 = (false, false) := by
  unfold check_claimsTr
  rw [hget]
  have hu2 : pyTruthyOpt (some u) = true := pyTruthyStr_of_ne hu
  simp only [hu2, hkey, Bool.not_true, Bool.true_eq_false, if_false, Bool.false_eq_true,
    if_neg (by simp : ¬ (true = false))]
  rcases h with ⟨e, he⟩ | ⟨vt, tr, he, hcond⟩
  · rw [he]
  · rw [he]
    simp [hcond]

theorem check_flags_of_claims_fail (getUrl : Except String (Option String)) (hasKey : Bool)
    (subs : String → Except String (Option String × String))
    (genC genF : String → Except String String) (u t tr : String)
    (hget : getUrl = .ok (some u)) (hu : u ≠ "") (hkey : hasKey = true)
    (hsubs : subs u = .ok (some t, tr)) (ht : t ≠ "") (htr : tr ≠ "")
    (hfail : extract_claims genC tr t = ""
      ∨ strStartsWith (extract_claims genC tr t) "Error" = true) :
    (check_claimsTr getUrl hasKey subs genC genF).2 = (true, false) := by
  unfold check_claimsTr
  rw [hget]
  have hu2 : pyTruthyOpt (some u) = true := pyTruthyStr_of_ne hu
  have ht2 : pyTruthyOpt (some t) = true := pyTruthyStr_of_ne ht
  have htr2 : pyTruthyStr tr = true := pyTruthyStr_of_ne htr
  simp only [hu2, hkey, Bool.not_true, Bool.true_eq_false, if_false, Bool.false_eq_true,
    if_neg (by simp : ¬ (true = false))]
  rw [hsubs]
  simp only [ht2, htr2, Bool.and_self, Bool.not_true, Bool.false_eq_true, if_false]
  rcases hfail with hf | hf
  · rw [hf]
    have hpe : pyTruthyStr "" = false := rfl
    simp [hpe]
  · simp [hf]

/-- Claim C1: when URL retrieval, claim extraction and fact-checking all
succeed, the `/api/check-claims` handler returns 200 with exactly
`success`, the retrieved `video_title`, the echoed `video_url`, the
character length of the transcript, the extraction stage's text and the
fact-check stage's text; and every response whatsoever is either that
success object with status 200 or an object carrying an `error` string
with status 400 or 500. -/
theorem c1_handler_contract (getUrl : Except String (Option String)) (hasKey : Bool)
    (subs : String → Except String (Option String × String))
    (genC genF : String → Except String String) (u t tr : String) :
    (getUrl = .ok (some u) → u ≠ "" → hasKey = true →
      subs u = .ok (some t, tr) → t ≠ "" → tr ≠ "" →
      extract_claims genC tr t ≠ "" →
      strStartsWith (extract_claims genC tr t) "Error" = false →
      fact_check_claims genF (extract_claims genC tr t) ≠ "" →
      strStartsWith (fact_check_claims genF (extract_claims genC tr t)) "Error" = false →
      check_claims getUrl hasKey subs genC genF
        = (200, .success t u tr.length (extract_claims genC tr t)
            (fact_check_claims genF (extract_claims genC tr t))))
    ∧ ((∃ vt vu n c f, (check_claims getUrl hasKey subs genC genF).2 = .success vt vu n c f
          ∧ (check_claims getUrl hasKey subs genC genF).1 = 200)
        ∨ (∃ m, (check_claims getUrl hasKey subs genC genF).2 = .err m
            ∧ ((check_claims getUrl hasKey subs genC genF).1 = 400
              ∨ (check_claims getUrl hasKey subs genC genF).1 = 500))) := by
  constructor
  · intro hget hu hkey hsubs ht htr hc1 hc2 hf1 hf2
    unfold check_claims check_claimsTr
    rw [hget]
    have hu2 : pyTruthyOpt (some u) = true := pyTruthyStr_of_ne hu
    have ht2 : pyTruthyOpt (some t) = true := pyTruthyStr_of_ne ht
    have htr2 : pyTruthyStr tr = true := pyTruthyStr_of_ne htr
    have hc12 : pyTruthyStr (extract_claims genC tr t) = true := pyTruthyStr_of_ne hc1
    have hf12 : pyTruthyStr (fact_check_claims genF (extract_claims genC tr t)) = true :=
      pyTruthyStr_of_ne hf1
    simp only [hu2, hkey, Bool.not_true, Bool.true_eq_false, if_false, Bool.false_eq_true,
      if_neg (by simp : ¬ (true = false))]
    rw [hsubs]
    simp only [ht2, htr2, Bool.and_self, Bool.not_true, Bool.false_eq_true, if_false,
      hc12, hc2, hf12, hf2, Bool.not_false, Bool.false_or, if_false]
  · unfold check_claims check_claimsTr
    rcases getUrl with e | vu
    · exact Or.inr ⟨_, rfl, Or.inr rfl⟩
    · dsimp only
      split
      · exact Or.inr ⟨_, rfl, Or.inl rfl⟩
      · rcases vu with _ | u2
        · exact Or.inr ⟨_, rfl, Or.inl rfl⟩
        · dsimp only
          split
          · exact Or.inr ⟨_, rfl, Or.inr rfl⟩
          · rcases hsub : subs u2 with e | vttr
            · exact Or.inr ⟨_, rfl, Or.inr rfl⟩
            · rcases vttr with ⟨vt, tr2⟩
              dsimp only
              split
              · exact Or.inr ⟨_, rfl, Or.inl rfl⟩
              · rcases vt with _ | t2
                · exact Or.inr ⟨_, rfl, Or.inl rfl⟩
                · dsimp only
                  split
                  · exact Or.inr ⟨_, rfl, Or.inr rfl⟩
                  · split
                    · exact Or.inr ⟨_, rfl, Or.inr rfl⟩
                    · exact Or.inl ⟨_, _, _, _, _, rfl, rfl⟩

/-- Witness for C1 at concrete oracles: the fully successful request
returns the 200 success object with all five fields. -/
theorem c1_witness :
    check_claims getUrlOk true subsOk genOkC genOkF
      = (200, .success "Test Video" "https://youtu.be/dQw4w9WgXcQ" 3
          "1. Claim" "Status: TRUE") :=
  (c1_handler_contract getUrlOk true subsOk genOkC genOkF
      "https://youtu.be/dQw4w9WgXcQ" "Test Video" "abc").1
    rfl (by decide) rfl rfl (by decide) (by decide) (by decide) rfl (by decide) rfl

/-- Claim C2, counterexample: `notaurl` contains no recognized video-id
shape, yet the parser of src/main.py returns the identifier `notaurl`
through its naive fallback (rather than failing), and the main pipeline
would then invoke the Caption Source Adapter on it. -/
theorem c2_counterexample :
    MainPy.extract_video_id "notaurl" = some "notaurl"
      ∧ MainPy.invokes_adapter "notaurl" = true := ⟨rfl, rfl⟩

/-- Claim C2 (amended): in src/ytverifier.py, whenever `extract_video_id`
yields no usable identifier (`None`, or the falsy empty string), the
pipeline returns the `Invalid YouTube URL` error without ever invoking the
caption source adapter.  The claim does not hold of every malformed URL:
src/main.py's fallback parser returns a substring of the URL instead of
failing (see the counterexample), and a `/watch` URL without a usable `v`
parameter makes src/ytverifier.py's parser raise a `KeyError` instead of
returning `None`. -/
theorem c2_invalid_url_short_circuit
    (rob : String → Except String (Option String × String)) (url : String)
    (h : Ytverifier.extract_video_id url = .ok none
      ∨ Ytverifier.extract_video_id url = .ok (some "")) :
    Ytverifier.extract_subtitlesTr rob url = (.ok (none, "Invalid YouTube URL"), false) :=
  extract_subtitlesTr_invalid rob url h

/-- Witness for C2 (amended): a URL with a foreign host parses to `None`
and short-circuits without an adapter call. -/
theorem c2_witness :
    Ytverifier.extract_subtitlesTr robAny "https://example.com/a"
      = (.ok (none, "Invalid YouTube URL"), false) :=
  c2_invalid_url_short_circuit robAny "https://example.com/a" (Or.inl rfl)

/-- Claim C8: the handler's stages short-circuit in pipeline order: a
failed or falsy subtitle retrieval means neither the claim-extraction nor
the fact-check stage runs; a failed claim extraction means the fact-check
stage does not run; and a below-threshold transcript from the robust
extractor, composed through `extract_subtitles`, never reaches the
claim-extraction stage. -/
theorem c8_pipeline_short_circuit (getUrl : Except String (Option String)) (hasKey : Bool)
    (subs rob : String → Except String (Option String × String))
    (genC genF : String → Except String String) (u : String) :
    (getUrl = .ok (some u) → u ≠ "" → hasKey = true →
      ((∃ e, subs u = .error e)
        ∨ ∃ vt tr, subs u = .ok (vt, tr) ∧ (pyTruthyStr tr && pyTruthyOpt vt) = false) →
      (check_claimsTr getUrl hasKey subs genC genF).2 = (false, false))
    ∧ (∀ t tr, getUrl = .ok (some u) → u ≠ "" → hasKey = true →
        subs u = .ok (some t, tr) → t ≠ "" → tr ≠ "" →
        (extract_claims genC tr t = ""
          ∨ strStartsWith (extract_claims genC tr t) "Error" = true) →
        (check_claimsTr getUrl hasKey subs genC genF).2 = (true, false))
    ∧ (∀ t s, getUrl = .ok (some u) → u ≠ "" → hasKey = true →
        rob u = .ok (some t, s) → s.length ≤ 50 →
        (check_claimsTr getUrl hasKey (Ytverifier.extract_subtitles rob) genC genF).2.1
          = false) := by
  refine ⟨fun hget hu hkey h =>
    check_flags_of_subs_fail getUrl hasKey subs genC genF u hget hu hkey h,
    fun t tr hget hu hkey hsubs ht htr hfail =>
      check_flags_of_claims_fail getUrl hasKey subs genC genF u t tr
        hget hu hkey hsubs ht htr hfail, ?_⟩
  intro t s hget hu hkey hrob hlen
  have hfail : (∃ e, Ytverifier.extract_subtitles rob u = .error e)
      ∨ ∃ vt tr, Ytverifier.extract_subtitles rob u = .ok (vt, tr)
          ∧ (pyTruthyStr tr && pyTruthyOpt vt) = false := by
    rcases hp : Ytverifier.extract_video_id u with e | vid
    · refine Or.inl ⟨e, ?_⟩
      unfold Ytverifier.extract_subtitles Ytverifier.extract_subtitlesTr
      rw [hp]
    · rcases vid with _ | v
      · exact Or.inr ⟨none, "Invalid YouTube URL", by
          unfold Ytverifier.extract_subtitles
          rw [extract_subtitlesTr_invalid rob u (Or.inl hp)], rfl⟩
      · by_cases hv : v = ""
        · subst hv
          exact Or.inr ⟨none, "Invalid YouTube URL", by
            unfold Ytverifier.extract_subtitles
            rw [extract_subtitlesTr_invalid rob u (Or.inr hp)], rfl⟩
        · exact Or.inr ⟨none, "Could not extract meaningful transcript content", by
            unfold Ytverifier.extract_subtitles
            rw [extract_subtitlesTr_short rob u v t s hp hv hrob hlen], rfl⟩
  have := check_flags_of_subs_fail getUrl hasKey (Ytverifier.extract_subtitles rob)
    genC genF u hget hu hkey hfail
  rw [this]

/-- Witness for C8 at concrete inputs: a 4-character transcript from the
robust extractor leaves the claim-extraction stage uninvoked. -/
theorem c8_witness :
    (check_claimsTr (.ok (some "x")) true (Ytverifier.extract_subtitles robShort)
        genOkC genOkF).2.1 = false :=
  (c8_pipeline_short_circuit (.ok (some "x")) true (Ytverifier.extract_subtitles robShort)
      robShort genOkC genOkF "x").2.2 "Test Video" "tiny"
    rfl (by decide) rfl rfl (by decide)

/-! Helper lemmas for the URL-shape claim. -/

theorem vid_not_special {c : Char} (h : isVidChar c = true) :
    c ≠ '#' ∧ c ≠ '?' ∧ c ≠ '&' ∧ c ≠ '/' ∧ c ≠ '=' := by
  refine ⟨?_, ?_, ?_, ?_, ?_⟩ <;> rintro rfl <;> exact absurd h (by decide)

theorem urlKeep_of_vid {c : Char} (h : isVidChar c = true) : urlKeepChar c = true := by
  have h1 : c ≠ '\t' := by rintro rfl; exact absurd h (by decide)
  have h2 : c ≠ '\r' := by rintro rfl; exact absurd h (by decide)
  have h3 : c ≠ '\n' := by rintro rfl; exact absurd h (by decide)
  simp [urlKeepChar, h1, h2, h3]

theorem takeVid_full :
    ∀ (l : List Char), l.all isVidChar = true → takeVid l.length l = some l := by
  intro l
  induction l with
  | nil => intro _; rfl
  | cons c rest ih =>
    intro h
    simp only [List.all_cons, Bool.and_eq_true] at h
    simp only [List.length_cons, takeVid, h.1, if_pos, ih h.2]

theorem vidTake_of {idl : List Char} (hlen : idl.length = 11)
    (hvid : idl.all isVidChar = true) : vidTake idl = some idl := by
  unfold vidTake
  rw [← hlen]
  exact takeVid_full idl hvid

theorem splitAtFirstAux_no {c : Char} :
    ∀ (l acc : List Char), (∀ x ∈ l, x ≠ c) →
      splitAtFirstAux c acc l = (acc.reverse ++ l, []) := by
  intro l
  induction l with
  | nil => intro acc _; simp [splitAtFirstAux]
  | cons x rest ih =>
    intro acc h
    have hx : x ≠ c := h x (List.mem_cons_self _ _)
    simp only [splitAtFirstAux, if_neg hx]
    rw [ih (x :: acc) (fun y hy => h y (List.mem_cons_of_mem _ hy))]
    simp

theorem splitAtFirst_no {c : Char} {l : List Char} (h : ∀ x ∈ l, x ≠ c) :
    splitAtFirst c l = (l, []) := by
  unfold splitAtFirst
  simpa using splitAtFirstAux_no l [] h

theorem splitAll_no {c : Char} : ∀ {l : List Char}, (∀ x ∈ l, x ≠ c) →
    splitAll c l = [l] := by
  intro l
  induction l with
  | nil => intro _; rfl
  | cons x rest ih =>
    intro h
    have hx : x ≠ c := h x (List.mem_cons_self _ _)
    simp only [splitAll, if_neg hx, ih (fun y hy => h y (List.mem_cons_of_mem _ hy))]

theorem vid_all_ne {idl : List Char} (hvid : idl.all isVidChar = true) (c0 : Char)
    (h0 : isVidChar c0 = false) : ∀ x ∈ idl, x ≠ c0 := by
  intro x hx heq
  subst heq
  rw [List.all_eq_true] at hvid
  rw [hvid x hx] at h0
  cases h0

theorem ne_of_all_ne {l : List Char} {c : Char} (h : l.all (fun y => !(y = c)) = true) :
    ∀ x ∈ l, x ≠ c := by
  intro x hx
  have h2 := List.all_eq_true.1 h x hx
  simpa using h2

theorem splitAll_cons_eq {c : Char} (l : List Char) :
    splitAll c (c :: l) = [] :: splitAll c l := by
  simp [splitAll]

theorem splitAll_cons_ne {c x : Char} {l h0 : List Char} {t0 : List (List Char)}
    (hx : x ≠ c) (h : splitAll c l = h0 :: t0) :
    splitAll c (x :: l) = (x :: h0) :: t0 := by
  simp only [splitAll, if_neg hx, h]

theorem yt_parse_short (idl : List Char) (hlen : idl.length = 11)
    (hvid : idl.all isVidChar = true) :
    Ytverifier.extract_video_id ⟨"https://youtu.be/".data ++ idl⟩ = .ok (some ⟨idl⟩) := by
  have hno : ∀ x ∈ idl, urlKeepChar x = true := fun x hx =>
    urlKeep_of_vid (List.all_eq_true.1 hvid x hx)
  have hpre : List.filter urlKeepChar "https://youtu.be/".data
      = "https://youtu.be/".data := rfl
  have hu : removeUnsafe ("https://youtu.be/".data ++ idl)
      = "https://youtu.be/".data ++ idl := by
    unfold removeUnsafe
    rw [List.filter_append, hpre, List.filter_eq_self.2 hno]
  have hnohash : ∀ x ∈ ('/' :: idl), x ≠ '#' := by
    intro x hx
    rcases List.mem_cons.1 hx with rfl | hx2
    · decide
    · exact vid_all_ne hvid '#' (by decide) x hx2
  have hnoq : ∀ x ∈ ('/' :: idl), x ≠ '?' := by
    intro x hx
    rcases List.mem_cons.1 hx with rfl | hx2
    · decide
    · exact vid_all_ne hvid '?' (by decide) x hx2
  unfold Ytverifier.extract_video_id
  rw [hu]
  dsimp only
  rw [show splitScheme ("https://youtu.be/".data ++ idl)
      = ("https".data, "//youtu.be/".data ++ idl) from rfl]
  dsimp only
  rw [show splitNetloc ("//youtu.be/".data ++ idl)
      = ("youtu.be".data, '/' :: idl) from rfl]
  dsimp only
  rw [splitAtFirst_no hnohash]
  dsimp only
  rw [splitAtFirst_no hnoq]
  dsimp only
  rw [show pyHostname "youtu.be".data = "youtu.be".data from rfl]
  rw [if_pos rfl]
  rfl

theorem yt_parse_watch (idl : List Char) (hlen : idl.length = 11)
    (hvid : idl.all isVidChar = true) :
    Ytverifier.extract_video_id ⟨"https://www.youtube.com/watch?v=".data ++ idl⟩
      = .ok (some ⟨idl⟩) := by
  have hno : ∀ x ∈ idl, urlKeepChar x = true := fun x hx =>
    urlKeep_of_vid (List.all_eq_true.1 hvid x hx)
  have hpre : List.filter urlKeepChar "https://www.youtube.com/watch?v=".data
      = "https://www.youtube.com/watch?v=".data := rfl
  have hu : removeUnsafe ("https://www.youtube.com/watch?v=".data ++ idl)
      = "https://www.youtube.com/watch?v=".data ++ idl := by
    unfold removeUnsafe
    rw [List.filter_append, hpre, List.filter_eq_self.2 hno]
  have hnohash : ∀ x ∈ ("/watch?v=".data ++ idl), x ≠ '#' := by
    intro x hx
    rcases List.mem_append.1 hx with h | h
    · exact ne_of_all_ne (by decide) x h
    · exact vid_all_ne hvid '#' (by decide) x h
  have hnoamp : ∀ x ∈ ("v=".data ++ idl), x ≠ '&' := by
    intro x hx
    rcases List.mem_append.1 hx with h | h
    · exact ne_of_all_ne (by decide) x h
    · exact vid_all_ne hvid '&' (by decide) x h
  have hne : idl.isEmpty = false := by
    cases idl with
    | nil => simp at hlen
    | cons a t => rfl
  have hqs : parseQsFirst "v".data ["v=".data ++ idl] = some idl := by
    unfold parseQsFirst
    rw [show ("v=".data ++ idl).isEmpty = false from rfl]
    rw [show splitAtFirstOpt '=' [] ("v=".data ++ idl) = some (['v'], idl) from rfl]
    simp [hne]
  unfold Ytverifier.extract_video_id
  rw [hu]
  dsimp only
  rw [show splitScheme ("https://www.youtube.com/watch?v=".data ++ idl)
      = ("https".data, "//www.youtube.com/watch?v=".data ++ idl) from rfl]
  dsimp only
  rw [show splitNetloc ("//www.youtube.com/watch?v=".data ++ idl)
      = ("www.youtube.com".data, "/watch?v=".data ++ idl) from rfl]
  dsimp only
  rw [splitAtFirst_no hnohash]
  dsimp only
  rw [show splitAtFirst '?' ("/watch?v=".data ++ idl)
      = ("/watch".data, "v=".data ++ idl) from rfl]
  dsimp only
  rw [show pyHostname "www.youtube.com".data = "www.youtube.com".data from rfl]
  rw [if_neg (by decide)]
  rw [if_pos (Or.inl rfl)]
  rw [if_pos rfl]
  rw [splitAll_no hnoamp, hqs]

theorem yt_parse_embed (idl : List Char) (hlen : idl.length = 11)
    (hvid : idl.all isVidChar = true) :
    Ytverifier.extract_video_id ⟨"https://www.youtube.com/embed/".data ++ idl⟩
      = .ok (some ⟨idl⟩) := by
  have hno : ∀ x ∈ idl, urlKeepChar x = true := fun x hx =>
    urlKeep_of_vid (List.all_eq_true.1 hvid x hx)
  have hpre : List.filter urlKeepChar "https://www.youtube.com/embed/".data
      = "https://www.youtube.com/embed/".data := rfl
  have hu : removeUnsafe ("https://www.youtube.com/embed/".data ++ idl)
      = "https://www.youtube.com/embed/".data ++ idl := by
    unfold removeUnsafe
    rw [List.filter_append, hpre, List.filter_eq_self.2 hno]
  have hnohash : ∀ x ∈ ("/embed/".data ++ idl), x ≠ '#' := by
    intro x hx
    rcases List.mem_append.1 hx with h | h
    · exact ne_of_all_ne (by decide) x h
    · exact vid_all_ne hvid '#' (by decide) x h
  have hnoq : ∀ x ∈ ("/embed/".data ++ idl), x ≠ '?' := by
    intro x hx
    rcases List.mem_append.1 hx with h | h
    · exact ne_of_all_ne (by decide) x h
    · exact vid_all_ne hvid '?' (by decide) x h
  have e1 : splitAll '/' idl = [idl] := splitAll_no (vid_all_ne hvid '/' (by decide))
  have e2 : splitAll '/' ('/' :: idl) = [[], idl] := by
    rw [splitAll_cons_eq, e1]
  have hsplit : splitAll '/' ("/embed/".data ++ idl) = [[], "embed".data, idl] := by
    show splitAll '/' ('/' :: 'e' :: 'm' :: 'b' :: 'e' :: 'd' :: '/' :: idl) = _
    rw [splitAll_cons_eq]
    rw [splitAll_cons_ne (by decide) (splitAll_cons_ne (by decide) (splitAll_cons_ne
      (by decide) (splitAll_cons_ne (by decide) (splitAll_cons_ne (by decide) e2))))]
  unfold Ytverifier.extract_video_id
  rw [hu]
  dsimp only
  rw [show splitScheme ("https://www.youtube.com/embed/".data ++ idl)
      = ("https".data, "//www.youtube.com/embed/".data ++ idl) from rfl]
  dsimp only
  rw [show splitNetloc ("//www.youtube.com/embed/".data ++ idl)
      = ("www.youtube.com".data, "/embed/".data ++ idl) from rfl]
  dsimp only
  rw [splitAtFirst_no hnohash]
  dsimp only
  rw [splitAtFirst_no hnoq]
  dsimp only
  rw [show pyHostname "www.youtube.com".data = "www.youtube.com".data from rfl]
  rw [if_neg (by decide)]
  rw [if_pos (Or.inl rfl)]
  rw [if_neg (show ¬("/embed/".data ++ idl = "/watch".data) from by
    intro h
    injection h with h1 h2
    injection h2 with h3 h4
    exact absurd h3 (by decide))]
  rw [if_pos (List.isPrefixOf_iff_prefix.2 (List.prefix_append _ _))]
  rw [hsplit]
  rfl

theorem main_parse_short (idl : List Char) (hlen : idl.length = 11)
    (hvid : idl.all isVidChar = true) :
    MainPy.extract_video_id ⟨"https://youtu.be/".data ++ idl⟩ = some ⟨idl⟩ := by
  unfold MainPy.extract_video_id
  rw [show searchP1 (String.mk ("https://youtu.be/".data ++ idl)).data
      = (match vidTake idl with | some v => some v | none => searchP1 idl) from rfl]
  rw [vidTake_of hlen hvid]

theorem main_parse_watch (idl : List Char) (hlen : idl.length = 11)
    (hvid : idl.all isVidChar = true) :
    MainPy.extract_video_id ⟨"https://www.youtube.com/watch?v=".data ++ idl⟩
      = some ⟨idl⟩ := by
  unfold MainPy.extract_video_id
  rw [show searchP1 (String.mk ("https://www.youtube.com/watch?v=".data ++ idl)).data
      = (match vidTake idl with | some v => some v | none => searchP1 ('=' :: idl))
      from rfl]
  rw [vidTake_of hlen hvid]

theorem main_parse_embed (idl : List Char) (hlen : idl.length = 11)
    (hvid : idl.all isVidChar = true) :
    MainPy.extract_video_id ⟨"https://www.youtube.com/embed/".data ++ idl⟩
      = some ⟨idl⟩ := by
  unfold MainPy.extract_video_id
  rw [show searchP1 (String.mk ("https://www.youtube.com/embed/".data ++ idl)).data
      = (match vidTake idl with | some v => some v | none => searchP1 idl) from rfl]
  rw [vidTake_of hlen hvid]

/-- Claim C3: for every 11-character identifier over the video-id alphabet,
the short-link, watch and embed URL shapes all parse to that same
identifier, under both the urlparse-based parser of src/ytverifier.py and
the regex-based parser of src/main.py. -/
theorem c3_shapes_agree (id : String) (hlen : id.length = 11)
    (hvid : id.data.all isVidChar = true) :
    Ytverifier.extract_video_id ("https://youtu.be/" ++ id) = .ok (some id)
      ∧ Ytverifier.extract_video_id ("https://www.youtube.com/watch?v=" ++ id)
          = .ok (some id)
      ∧ Ytverifier.extract_video_id ("https://www.youtube.com/embed/" ++ id)
          = .ok (some id)
      ∧ MainPy.extract_video_id ("https://youtu.be/" ++ id) = some id
      ∧ MainPy.extract_video_id ("https://www.youtube.com/watch?v=" ++ id) = some id
      ∧ MainPy.extract_video_id ("https://www.youtube.com/embed/" ++ id) = some id := by
  obtain ⟨idl⟩ := id
  have hl : idl.length = 11 := hlen
  exact ⟨yt_parse_short idl hl hvid, yt_parse_watch idl hl hvid,
    yt_parse_embed idl hl hvid, main_parse_short idl hl hvid,
    main_parse_watch idl hl hvid, main_parse_embed idl hl hvid⟩

/-- Witness for C3 at the identifier `dQw4w9WgXcQ`. -/
theorem c3_witness :
    Ytverifier.extract_video_id ("https://youtu.be/" ++ "dQw4w9WgXcQ")
        = .ok (some "dQw4w9WgXcQ")
      ∧ Ytverifier.extract_video_id ("https://www.youtube.com/watch?v=" ++ "dQw4w9WgXcQ")
          = .ok (some "dQw4w9WgXcQ")
      ∧ Ytverifier.extract_video_id ("https://www.youtube.com/embed/" ++ "dQw4w9WgXcQ")
          = .ok (some "dQw4w9WgXcQ")
      ∧ MainPy.extract_video_id ("https://youtu.be/" ++ "dQw4w9WgXcQ")
          = some "dQw4w9WgXcQ"
      ∧ MainPy.extract_video_id ("https://www.youtube.com/watch?v=" ++ "dQw4w9WgXcQ")
          = some "dQw4w9WgXcQ"
      ∧ MainPy.extract_video_id ("https://www.youtube.com/embed/" ++ "dQw4w9WgXcQ")
          = some "dQw4w9WgXcQ" :=
  c3_shapes_agree "dQw4w9WgXcQ" (by decide) (by decide)

/-! Helper lemmas for normalizer idempotence: `pyStrip`. -/

theorem head?_pyStrip_not (l : List Char) :
    ∀ x, (pyStrip l).head? = some x → isPySpace x = false := by
  intro x hx
  unfold pyStrip at hx
  rw [List.head?_reverse] at hx
  obtain ⟨a, ha⟩ := List.dropWhile_suffix (l := (l.dropWhile isPySpace).reverse) isPySpace
  have h2 : ((l.dropWhile isPySpace).reverse).getLast? = some x := by
    rw [← ha, List.getLast?_append, hx]
    rfl
  rw [List.getLast?_reverse] at h2
  have h3 := List.head?_dropWhile_not isPySpace l
  rw [h2] at h3
  exact h3

theorem getLast?_pyStrip_not (l : List Char) :
    ∀ x, (pyStrip l).getLast? = some x → isPySpace x = false := by
  intro x hx
  unfold pyStrip at hx
  rw [List.getLast?_reverse] at hx
  have h3 := List.head?_dropWhile_not isPySpace ((l.dropWhile isPySpace).reverse)
  rw [hx] at h3
  exact h3

theorem pyStrip_eq_self_of {l : List Char}
    (h1 : ∀ x, l.head? = some x → isPySpace x = false)
    (h2 : ∀ x, l.getLast? = some x → isPySpace x = false) : pyStrip l = l := by
  unfold pyStrip
  have hd : l.dropWhile isPySpace = l := by
    cases l with
    | nil => rfl
    | cons c rest =>
      rw [List.dropWhile_cons_of_neg]
      simp [h1 c rfl]
  rw [hd]
  have hr : l.reverse.dropWhile isPySpace = l.reverse := by
    cases hrev : l.reverse with
    | nil => rfl
    | cons c rest =>
      have hc : l.getLast? = some c := by
        rw [← List.head?_reverse, hrev]
        rfl
      rw [List.dropWhile_cons_of_neg]
      simp [h2 c hc]
  rw [hr, List.reverse_reverse]

theorem pyStrip_idem (l : List Char) : pyStrip (pyStrip l) = pyStrip l :=
  pyStrip_eq_self_of (head?_pyStrip_not l) (getLast?_pyStrip_not l)

theorem mem_pyStrip {l : List Char} : ∀ x ∈ pyStrip l, x ∈ l := by
  intro x hx
  unfold pyStrip at hx
  rw [List.mem_reverse] at hx
  have h1 := (List.dropWhile_sublist (l := (l.dropWhile isPySpace).reverse) isPySpace).subset hx
  rw [List.mem_reverse] at h1
  exact (List.dropWhile_sublist isPySpace).subset h1

theorem pyStrip_ne_nil_head {l : List Char} (h : pyStrip l ≠ []) :
    ∃ x, (pyStrip l).head? = some x := by
  cases hp : pyStrip l with
  | nil => exact absurd hp h
  | cons c rest => exact ⟨c, rfl⟩

/-! Helper lemmas for normalizer idempotence: the SRT path. -/

theorem nl_not_mem_collapseNl_aux :
    ∀ (n : Nat) (l : List Char), l.length ≤ n → '\n' ∉ collapseNl l := by
  intro n
  induction n with
  | zero =>
    intro l hl
    cases l with
    | nil => simp [collapseNl]
    | cons c rest => simp at hl
  | succ n ih =>
    intro l hl
    cases l with
    | nil => simp [collapseNl]
    | cons c rest =>
      rw [collapseNl]
      split
      · intro hmem
        rcases List.mem_cons.1 hmem with h | h
        · cases h
        · exact ih (rest.dropWhile (fun x => x = '\n'))
            (le_trans (List.dropWhile_sublist _).length_le (by simp at hl; omega)) h
      · rename_i hc
        intro hmem
        rcases List.mem_cons.1 hmem with h | h
        · exact hc h.symm
        · exact ih rest (by simp at hl; omega) h

theorem nl_not_mem_collapseNl (l : List Char) : '\n' ∉ collapseNl l :=
  nl_not_mem_collapseNl_aux l.length l le_rfl

theorem collapseNl_no_nl : ∀ {l : List Char}, '\n' ∉ l → collapseNl l = l := by
  intro l
  induction l with
  | nil => intro _; simp [collapseNl]
  | cons c rest ih =>
    intro h
    have hc : ¬ (c = '\n') := fun he => h (he ▸ List.mem_cons_self _ _)
    rw [collapseNl, if_neg hc, ih (fun hm => h (List.mem_cons_of_mem _ hm))]

theorem removeTs_no_nl : ∀ {l : List Char}, '\n' ∉ l → removeTs l = l := by
  intro l
  induction l with
  | nil => intro _; simp [removeTs]
  | cons c rest ih =>
    intro h
    have hrest : '\n' ∉ rest := fun hm => h (List.mem_cons_of_mem _ hm)
    have hm : matchTpl tsTpl (rest.dropWhile Char.isDigit) = none := by
      cases harg : rest.dropWhile Char.isDigit with
      | nil => rfl
      | cons a t =>
        have ha : a ∈ rest := by
          apply (List.dropWhile_sublist Char.isDigit).subset
          rw [harg]
          exact List.mem_cons_self _ _
        have hne : ¬ (a = '\n') := fun he => hrest (he ▸ ha)
        show matchTpl tsTpl (a :: t) = none
        rw [show (tsTpl : List (Char → Bool))
            = (fun x => (x = '\n' : Bool))
              :: (timeTpl ++ arrowTpl ++ timeTpl ++ nlTpl) from rfl]
        simp only [matchTpl]
        rw [if_neg (by simpa using hne)]
    rw [removeTs]
    split
    · rw [hm]
      rw [ih hrest]
    · rw [ih hrest]

theorem cleanSrtL_idem (x : List Char) : cleanSrtL (cleanSrtL x) = cleanSrtL x := by
  unfold cleanSrtL
  have hnl : '\n' ∉ pyStrip (collapseNl (removeTs x)) := fun hm =>
    nl_not_mem_collapseNl (removeTs x) (mem_pyStrip _ hm)
  rw [removeTs_no_nl hnl, collapseNl_no_nl hnl, pyStrip_idem]

/-! Helper lemmas for normalizer idempotence: the VTT path. -/

theorem splitAll_ne_nil (c : Char) : ∀ (l : List Char), splitAll c l ≠ [] := by
  intro l
  cases l with
  | nil => simp [splitAll]
  | cons x rest =>
    simp only [splitAll]
    split
    · simp
    · cases splitAll c rest <;> simp

theorem mem_splitAll_not (c : Char) :
    ∀ (l : List Char), ∀ part ∈ splitAll c l, c ∉ part := by
  intro l
  induction l with
  | nil =>
    intro part hp
    simp [splitAll] at hp
    simp [hp]
  | cons x rest ih =>
    intro part hp
    simp only [splitAll] at hp
    by_cases hx : x = c
    · rw [if_pos hx] at hp
      rcases List.mem_cons.1 hp with rfl | h
      · simp
      · exact ih part h
    · rw [if_neg hx] at hp
      cases hsp : splitAll c rest with
      | nil => exact absurd hsp (splitAll_ne_nil c rest)
      | cons h0 t0 =>
        rw [hsp] at hp
        rcases List.mem_cons.1 hp with rfl | h
        · intro hmem
          rcases List.mem_cons.1 hmem with rfl | h2
          · exact hx rfl
          · exact ih h0 (hsp ▸ List.mem_cons_self _ _) h2
        · exact ih part (hsp ▸ List.mem_cons_of_mem _ h)

theorem not_mem_joinSpace {a : Char} (ha : a ≠ ' ') :
    ∀ {ls : List (List Char)}, (∀ part ∈ ls, a ∉ part) → a ∉ joinSpace ls := by
  intro ls
  induction ls with
  | nil => intro _; simp [joinSpace]
  | cons y rest ih =>
    intro h
    cases rest with
    | nil => exact h y (List.mem_cons_self _ _)
    | cons r rs =>
      show a ∉ joinSpace (y :: r :: rs)
      intro hmem
      rw [show joinSpace (y :: r :: rs) = y ++ ' ' :: joinSpace (r :: rs) from rfl] at hmem
      rcases List.mem_append.1 hmem with hm | hm
      · exact h y (List.mem_cons_self _ _) hm
      · rcases List.mem_cons.1 hm with rfl | hm2
        · exact ha rfl
        · exact ih (fun p hp => h p (List.mem_cons_of_mem _ hp)) hm2

theorem startsArrow_append_space (a b : List Char) :
    startsArrow (a ++ ' ' :: b) = startsArrow a := by
  match a with
  | [] =>
    cases b with
    | nil => rfl
    | cons w r =>
      cases r with
      | nil => rfl
      | cons v r2 => simp [startsArrow]
  | [x] =>
    cases b with
    | nil => simp [startsArrow]
    | cons w r => simp [startsArrow]
  | [x, y] => simp [startsArrow]
  | x :: y :: z :: rest => simp [startsArrow]

theorem hasArrow_append_space :
    ∀ (a b : List Char), hasArrow (a ++ ' ' :: b) = (hasArrow a || hasArrow b) := by
  intro a
  induction a with
  | nil =>
    intro b
    show hasArrow (' ' :: b) = (hasArrow [] || hasArrow b)
    rw [show hasArrow (' ' :: b) = (startsArrow (' ' :: b) || hasArrow b) from rfl]
    rw [show startsArrow (' ' :: b) = startsArrow ([] ++ ' ' :: b) from rfl,
      startsArrow_append_space]
    rfl
  | cons c a2 ih =>
    intro b
    show hasArrow ((c :: a2) ++ ' ' :: b) = _
    rw [show hasArrow ((c :: a2) ++ ' ' :: b)
        = (startsArrow ((c :: a2) ++ ' ' :: b) || hasArrow (a2 ++ ' ' :: b)) from rfl]
    rw [startsArrow_append_space, ih]
    rw [show hasArrow (c :: a2) = (startsArrow (c :: a2) || hasArrow a2) from rfl]
    rw [Bool.or_assoc]

theorem hasArrow_joinSpace :
    ∀ {ls : List (List Char)}, (∀ y ∈ ls, hasArrow y = false) →
      hasArrow (joinSpace ls) = false := by
  intro ls
  induction ls with
  | nil => intro _; rfl
  | cons y rest ih =>
    intro h
    cases rest with
    | nil => exact h y (List.mem_cons_self _ _)
    | cons r rs =>
      rw [show joinSpace (y :: r :: rs) = y ++ ' ' :: joinSpace (r :: rs) from rfl]
      rw [hasArrow_append_space, h y (List.mem_cons_self _ _),
        ih (fun p hp => h p (List.mem_cons_of_mem _ hp))]
      rfl

theorem not_isPrefix_append_space {p : List Char} (hs : ' ' ∉ p) :
    ∀ {y : List Char} (z : List Char), ¬ p <+: y → ¬ p <+: (y ++ ' ' :: z) := by
  suffices h : ∀ (y : List Char) (p2 : List Char), ' ' ∉ p2 → ∀ (z : List Char),
      ¬ p2 <+: y → ¬ p2 <+: (y ++ ' ' :: z) by
    intro y z hy
    exact h y p hs z hy
  intro y
  induction y with
  | nil =>
    intro p2 hs2 z hy hpre
    cases p2 with
    | nil => exact hy (List.nil_prefix)
    | cons q qs =>
      obtain ⟨t, ht⟩ := hpre
      simp only [List.nil_append] at ht
      have : q = ' ' := by
        have := congrArg (fun l => l.head?) ht
        simpa using this
      exact hs2 (this ▸ List.mem_cons_self _ _)
  | cons a y2 ih =>
    intro p2 hs2 z hy hpre
    cases p2 with
    | nil => exact hy (List.nil_prefix)
    | cons q qs =>
      obtain ⟨t, ht⟩ := hpre
      simp only [List.cons_append] at ht
      have hq : q = a := by
        have := congrArg (fun l => l.head?) ht
        simpa using this
      subst hq
      have hqs : ¬ qs <+: y2 := fun hqs2 => hy ((List.prefix_cons_inj _).mpr hqs2)
      have hqs3 : qs <+: (y2 ++ ' ' :: z) := by
        refine ⟨t, ?_⟩
        have := congrArg (fun l => l.tail) ht
        simpa using this
      exact ih qs (fun hm => hs2 (List.mem_cons_of_mem _ hm)) z hqs hqs3

theorem head?_joinSpace {y : List Char} (rest : List (List Char)) (hy : y ≠ []) :
    (joinSpace (y :: rest)).head? = y.head? := by
  cases rest with
  | nil => rfl
  | cons r rs =>
    cases y with
    | nil => exact absurd rfl hy
    | cons c t => rfl

theorem joinSpace_cons_ne_nil {y : List Char} (rest : List (List Char)) (hy : y ≠ []) :
    joinSpace (y :: rest) ≠ [] := by
  cases rest with
  | nil => exact hy
  | cons r rs =>
    rw [show joinSpace (y :: r :: rs) = y ++ ' ' :: joinSpace (r :: rs) from rfl]
    simp

theorem getLast?_joinSpace :
    ∀ (ls : List (List Char)), ls ≠ [] → (∀ y ∈ ls, y ≠ []) →
      ∃ z ∈ ls, (joinSpace ls).getLast? = z.getLast? := by
  intro ls
  induction ls with
  | nil => intro h _; exact absurd rfl h
  | cons y rest ih =>
    intro _ hall
    cases rest with
    | nil => exact ⟨y, List.mem_cons_self _ _, rfl⟩
    | cons r rs =>
      obtain ⟨z, hz, hlast⟩ := ih (by simp)
        (fun p hp => hall p (List.mem_cons_of_mem _ hp))
      refine ⟨z, List.mem_cons_of_mem _ hz, ?_⟩
      have hzne : z ≠ [] := hall z (List.mem_cons_of_mem _ hz)
      obtain ⟨w, hw⟩ := Option.isSome_iff_exists.1 (List.getLast?_isSome.2 hzne)
      have hjoin_ne : joinSpace (r :: rs) ≠ [] :=
        joinSpace_cons_ne_nil rs (hall r (List.mem_cons_of_mem _ (List.mem_cons_self _ _)))
      have h1 : (' ' :: joinSpace (r :: rs)).getLast? = (joinSpace (r :: rs)).getLast? := by
        cases hj : joinSpace (r :: rs) with
        | nil => exact absurd hj hjoin_ne
        | cons a t => rw [List.getLast?_cons_cons]
      rw [show joinSpace (y :: r :: rs) = y ++ ' ' :: joinSpace (r :: rs) from rfl]
      rw [List.getLast?_append, h1, hlast, hw, Option.or_some]

theorem isPrefixOf_false_iff {p y : List Char} :
    (p.isPrefixOf y) = false ↔ ¬ p <+: y := by
  rw [← List.isPrefixOf_iff_prefix]
  cases h : p.isPrefixOf y <;> simp

theorem keepLine_spec {y : List Char} (h : keepLine y = true) :
    y ≠ [] ∧ ("WEBVTT".data.isPrefixOf y) = false ∧ ("NOTE".data.isPrefixOf y) = false
      ∧ hasArrow y = false ∧ pyIsDigit y = false := by
  simp only [keepLine, Bool.and_eq_true, Bool.not_eq_true'] at h
  obtain ⟨⟨⟨⟨h1, h2⟩, h3⟩, h4⟩, h5⟩ := h
  exact ⟨List.isEmpty_eq_false.1 h1, h2, h3, h4, h5⟩

theorem keepLine_intro {y : List Char} (h1 : y ≠ [])
    (h2 : ("WEBVTT".data.isPrefixOf y) = false)
    (h3 : ("NOTE".data.isPrefixOf y) = false)
    (h4 : hasArrow y = false) (h5 : pyIsDigit y = false) : keepLine y = true := by
  simp only [keepLine, Bool.and_eq_true, Bool.not_eq_true']
  exact ⟨⟨⟨⟨List.isEmpty_eq_false.2 h1, h2⟩, h3⟩, h4⟩, h5⟩

theorem cleanVttL_idem (x : List Char) : cleanVttL (cleanVttL x) = cleanVttL x := by
  have hprops : ∀ y ∈ ((splitAll '\n' x).map pyStrip).filter keepLine,
      keepLine y = true ∧ pyStrip y = y ∧ '\n' ∉ y := by
    intro y hy
    have hk := List.of_mem_filter hy
    have hy2 := List.mem_of_mem_filter hy
    obtain ⟨z, hz, hzy⟩ := List.mem_map.1 hy2
    subst hzy
    refine ⟨hk, pyStrip_idem z, ?_⟩
    intro hmem
    exact mem_splitAll_not '\n' x z hz (mem_pyStrip _ hmem)
  unfold cleanVttL
  generalize hls : ((splitAll '\n' x).map pyStrip).filter keepLine = ls at hprops ⊢
  cases ls with
  | nil => rfl
  | cons y rest =>
    obtain ⟨hky, hsy, _⟩ := hprops y (List.mem_cons_self _ _)
    obtain ⟨hyne, hwvt, hnote, _, hdig⟩ := keepLine_spec hky
    have hJnl : '\n' ∉ joinSpace (y :: rest) :=
      not_mem_joinSpace (by decide) (fun p hp => (hprops p hp).2.2)
    have h1 : splitAll '\n' (joinSpace (y :: rest)) = [joinSpace (y :: rest)] :=
      splitAll_no (fun a ha hae => hJnl (hae ▸ ha))
    have hJne : joinSpace (y :: rest) ≠ [] := joinSpace_cons_ne_nil rest hyne
    have hstrip : pyStrip (joinSpace (y :: rest)) = joinSpace (y :: rest) := by
      apply pyStrip_eq_self_of
      · intro w hw2
        rw [head?_joinSpace rest hyne, ← hsy] at hw2
        exact head?_pyStrip_not y w hw2
      · intro w hw2
        obtain ⟨z, hz, hzl⟩ := getLast?_joinSpace (y :: rest) (by simp)
          (fun p hp => (keepLine_spec (hprops p hp).1).1)
        rw [hzl, ← (hprops z hz).2.1] at hw2
        exact getLast?_pyStrip_not z w hw2
    have hkJ : keepLine (joinSpace (y :: rest)) = true := by
      apply keepLine_intro hJne
      · rw [isPrefixOf_false_iff]
        cases rest with
        | nil => exact isPrefixOf_false_iff.1 hwvt
        | cons r rs =>
          rw [show joinSpace (y :: r :: rs) = y ++ ' ' :: joinSpace (r :: rs) from rfl]
          exact not_isPrefix_append_space (by decide) _ (isPrefixOf_false_iff.1 hwvt)
      · rw [isPrefixOf_false_iff]
        cases rest with
        | nil => exact isPrefixOf_false_iff.1 hnote
        | cons r rs =>
          rw [show joinSpace (y :: r :: rs) = y ++ ' ' :: joinSpace (r :: rs) from rfl]
          exact not_isPrefix_append_space (by decide) _ (isPrefixOf_false_iff.1 hnote)
      · exact hasArrow_joinSpace (fun p hp => (keepLine_spec (hprops p hp).1).2.2.2.1)
      · cases rest with
        | nil => exact hdig
        | cons r rs =>
          rw [show joinSpace (y :: r :: rs) = y ++ ' ' :: joinSpace (r :: rs) from rfl]
          have hsp : (' ' :: joinSpace (r :: rs)).all Char.isDigit = false := by
            rw [List.all_cons, show (' ').isDigit = false from rfl]
            rfl
          simp [pyIsDigit, List.all_append, hsp]
    rw [h1]
    rw [show List.map pyStrip [joinSpace (y :: rest)]
        = [pyStrip (joinSpace (y :: rest))] from rfl]
    rw [hstrip]
    rw [List.filter_cons, hkJ]
    rw [if_pos rfl]
    rfl

/-- Claim C7: both text-normalizer paths are idempotent: re-cleaning the
output of the VTT cleaning path or of the SRT cleaning path leaves it
unchanged, for every input string. -/
theorem c7_normalize_idempotent (x : String) :
    clean_vtt (clean_vtt x) = clean_vtt x ∧ clean_srt (clean_srt x) = clean_srt x :=
  ⟨congrArg String.mk (cleanVttL_idem x.data),
   congrArg String.mk (cleanSrtL_idem x.data)⟩
